import Mathlib

/-!
Shallow embedding of the sales-analytics repository
(`src/api_handler.py`, `src/utlis/data_processor.py`).

Python dynamic values are modelled by the inductive type `Value`
(`None`, `bool`, `int`, `str`); strings are lists of characters.
Python dicts are modelled as insertion-ordered association lists
(`aupd` replaces in place or appends, exactly like dict assignment).
Python `int(...)` / `float(...)` coercions are modelled by
`pyInt` / `pyFloat`, returning `none` where Python raises.
A function that can raise an uncaught exception is modelled with an
`Option` result, `none` standing for the raised exception.
Floats are modelled by rationals; `round(x, 2)` is modelled by `round2`
(round-half-to-even at two decimals).
-/

namespace SalesAnalytics

/-- A Python runtime value: `None`, a `bool`, an `int`, or a `str`. -/
inductive Value where
  | vNone
  | vBool (b : Bool)
  | vInt (n : Int)
  | vStr (s : List Char)
deriving DecidableEq

open Value

/-- The decimal digit character for `n < 10` (`'9'` for anything larger). -/
def digitChar : Nat → Char
  | 0 => '0' | 1 => '1' | 2 => '2' | 3 => '3' | 4 => '4'
  | 5 => '5' | 6 => '6' | 7 => '7' | 8 => '8' | _ => '9'

/-- Fuelled decimal rendering of a natural number, most significant digit first. -/
def natReprAux : Nat → Nat → List Char
  | 0, _ => []
  | fuel + 1, n =>
    if n < 10 then [digitChar n]
    else natReprAux fuel (n / 10) ++ [digitChar (n % 10)]

/-- Decimal rendering of a natural number (Python `str` on a non-negative `int`). -/
def natRepr (n : Nat) : List Char := natReprAux (n + 1) n

/-- Decimal rendering of an integer (Python `str` on an `int`). -/
def intRepr (z : Int) : List Char :=
  if z < 0 then '-' :: natRepr z.natAbs else natRepr z.natAbs

/-- Python `str(v)`. -/
def pyStr : Value → List Char
  | vNone => "None".toList
  | vBool true => "True".toList
  | vBool false => "False".toList
  | vInt z => intRepr z
  | vStr s => s

/-- Python truthiness (`bool(v)`). -/
def truthy : Value → Bool
  | vNone => false
  | vBool b => b
  | vInt n => n != 0
  | vStr s => !s.isEmpty

/-- Python `a or b` (first operand if truthy, else second). -/
def pyOr (a b : Value) : Value := if truthy a then a else b

/-- Whitespace characters stripped by Python `str.strip()`. -/
def isPySpace (c : Char) : Bool :=
  c = ' ' || c = '\t' || c = '\n' || c = '\r' || c = '\x0b' || c = '\x0c'

/-- Python `str.strip()`: remove leading and trailing whitespace. -/
def pyStrip (s : List Char) : List Char :=
  ((s.dropWhile isPySpace).reverse.dropWhile isPySpace).reverse

/-- Numeric value of a decimal digit character. -/
def digitVal (c : Char) : Nat := c.toNat - 48

/-- Value of a decimal digit string read left to right (Python `int` on digits). -/
def digitsToNat (s : List Char) : Nat := s.foldl (fun a c => 10 * a + digitVal c) 0

/-- Parse a non-empty all-digit string; `none` otherwise. -/
def parseDigits (s : List Char) : Option Nat :=
  if s.isEmpty then none
  else if s.all Char.isDigit then some (digitsToNat s) else none

/-- Parse an optionally signed decimal integer (body of Python `int(str)`). -/
def parseIntFrom : List Char → Option Int
  | '-' :: rest => (parseDigits rest).map (fun m => -(m : Int))
  | '+' :: rest => (parseDigits rest).map (fun m => (m : Int))
  | s => (parseDigits s).map (fun m => (m : Int))

/-- Python `int(s)` for a string `s`: surrounding whitespace allowed. -/
def parseInt (s : List Char) : Option Int := parseIntFrom (pyStrip s)

/-- Python `int(v)`; `none` models a raised `ValueError`/`TypeError`. -/
def pyInt : Value → Option Int
  | vNone => none
  | vBool b => some (if b then 1 else 0)
  | vInt n => some n
  | vStr s => parseInt s

/-- Parse the exponent suffix of a float literal and scale the mantissa. -/
def expPart (mant : ℚ) : List Char → Option ℚ
  | [] => some mant
  | e :: rest =>
    if e = 'e' || e = 'E' then
      match rest with
      | '-' :: ds => (parseDigits ds).map (fun k => mant / (10 : ℚ) ^ k)
      | '+' :: ds => (parseDigits ds).map (fun k => mant * (10 : ℚ) ^ k)
      | ds => (parseDigits ds).map (fun k => mant * (10 : ℚ) ^ k)
    else none

/-- Parse an unsigned float literal: `digits[.digits][exp]` or `.digits[exp]`. -/
def parseFloatFrom (s : List Char) : Option ℚ :=
  let ip := s.takeWhile Char.isDigit
  match s.dropWhile Char.isDigit with
  | '.' :: r2 =>
    let fp := r2.takeWhile Char.isDigit
    let r3 := r2.dropWhile Char.isDigit
    if ip.isEmpty && fp.isEmpty then none
    else expPart ((digitsToNat ip : ℚ) + (digitsToNat fp : ℚ) / (10 : ℚ) ^ fp.length) r3
  | r1 =>
    if ip.isEmpty then none else expPart (digitsToNat ip : ℚ) r1

/-- Parse an optionally signed float literal. -/
def parseFloatSigned : List Char → Option ℚ
  | '-' :: rest => (parseFloatFrom rest).map Neg.neg
  | '+' :: rest => parseFloatFrom rest
  | s => parseFloatFrom s

/-- Python `float(s)` for a string `s`: surrounding whitespace allowed. -/
def parseFloat (s : List Char) : Option ℚ := parseFloatSigned (pyStrip s)

/-- Python `float(v)`; `none` models a raised `ValueError`/`TypeError`. -/
def pyFloat : Value → Option ℚ
  | vNone => none
  | vBool b => some (if b then 1 else 0)
  | vInt n => some (n : ℚ)
  | vStr s => parseFloat s

/-- Floor of a rational as an integer (the denominator is positive). -/
def qfloor (q : ℚ) : Int := Int.fdiv q.num q.den

/-- Python `round(x, 2)` modelled on rationals: round half to even at two decimals. -/
def round2 (q : ℚ) : ℚ :=
  let x : ℚ := 100 * q
  let f : Int := qfloor x
  let r : ℚ := x - (f : ℚ)
  let n : Int :=
    if r < 1 / 2 then f
    else if 1 / 2 < r then f + 1
    else if f % 2 = 0 then f else f + 1
  (n : ℚ) / 100

/-- Lexicographic order on strings by code point (Python `<=` on `str`). -/
def lexLe : List Char → List Char → Bool
  | [], _ => true
  | _ :: _, [] => false
  | a :: as, b :: bs =>
    if a.toNat < b.toNat then true
    else if b.toNat < a.toNat then false
    else lexLe as bs

/-- Rank of a value's constructor, used to order values of different types. -/
def valueRank : Value → Nat
  | vNone => 0
  | vBool _ => 1
  | vInt _ => 2
  | vStr _ => 3

/-- A total order on values: same-type values compare as in Python
(strings by code point, ints numerically); values of different types
are ordered by constructor rank.  Python raises on cross-type `sorted`;
the repository only ever sorts keys of one type (strings), on which
this order agrees with Python. -/
def valueLeB : Value → Value → Bool
  | vNone, vNone => true
  | vBool a, vBool b => !a || b
  | vInt a, vInt b => decide (a ≤ b)
  | vStr a, vStr b => lexLe a b
  | x, y => decide (valueRank x < valueRank y)

/-- Lookup in an association list (Python `d[k]` / `k in d`). -/
def alookup {K A : Type} [DecidableEq K] (k : K) : List (K × A) → Option A
  | [] => none
  | (k', a) :: rest => if k = k' then some a else alookup k rest

/-- Update-or-append on an association list: Python dict mutation
`d[k] = f(d.get(k, init))`.  Replaces in place (keeping insertion
order) when the key is present, appends otherwise. -/
def aupd {K A : Type} [DecidableEq K] (m : List (K × A)) (k : K) (f : A → A) (init : A) :
    List (K × A) :=
  match m with
  | [] => [(k, f init)]
  | (k', a) :: rest => if k = k' then (k', f a) :: rest else (k', a) :: aupd rest k f init

/-- A transaction record / catalog entry: a Python dict from field name to value. -/
abbrev Rec := List (String × Value)

/-- Python `t[k]` for records, as an `Option`. -/
def rget (t : Rec) (k : String) : Option Value := alookup k t

/-- Python `t.get(k)`: the value, or `None` when the key is absent. -/
def rgetN (t : Rec) (k : String) : Value := (rget t k).getD vNone

/-- Python `t.get(k, d)`. -/
def rgetD (t : Rec) (k : String) (d : Value) : Value := (rget t k).getD d

/-- Python dict assignment `t[k] = v`. -/
def rset (t : Rec) (k : String) (v : Value) : Rec := aupd t k (fun _ => v) v

/-! ## `src/api_handler.py` -/

/-- The reduced catalog entry stored by `create_product_mapping`. -/
structure ProdInfo where
  title : Value
  category : Value
  brand : Value
  rating : Value
  price : Value
deriving DecidableEq

/-- The value dict built for one catalog entry in `create_product_mapping`. -/
def infoOf (p : Rec) : ProdInfo :=
  { title := rgetN p "title"
    category := rgetN p "category"
    brand := rgetN p "brand"
    rating := rgetN p "rating"
    price := rgetN p "price" }

/-- The product mapping: a dict keyed by integer product id. -/
abbrev PMap := List (Int × ProdInfo)

/-- Loop body of `create_product_mapping`.  `none` models the uncaught
`ValueError` raised by `int(pid)` on an unparseable identifier. -/
def cpmGo (m : PMap) : List Rec → Option PMap
  | [] => some m
  | p :: rest =>
    if rgetN p "id" = vNone then cpmGo m rest
    else
      match pyInt (rgetN p "id") with
      | none => none
      | some k => cpmGo (aupd m k (fun _ => infoOf p) (infoOf p)) rest

/-- `create_product_mapping(api_products)`: build the id → info dict.
There is no try/except in the source, so an unparseable identifier
raises (modelled by `none`). -/
def create_product_mapping (api_products : List Rec) : Option PMap :=
  cpmGo [] api_products

/-- The integer key a catalog entry contributes to the mapping:
`none` when its identifier is `None`/absent or fails to parse. -/
def entryKey (p : Rec) : Option Int :=
  if rgetN p "id" = vNone then none else pyInt (rgetN p "id")

/-- Drop one leading `p`/`P` (`if s.lower().startswith("p"): s = s[1:]`). -/
def stripLeadP : List Char → List Char
  | c :: rest => if c = 'p' || c = 'P' then rest else c :: rest
  | [] => []

/-- The digit string `extract_numeric_product_id` parses: stringify,
strip whitespace, drop one leading `p`/`P`, keep only the digits. -/
def normDigits (v : Value) : List Char :=
  (stripLeadP (pyStrip (pyStr v))).filter Char.isDigit

/-- `extract_numeric_product_id(product_id)`: `None` on falsy input,
else strip whitespace, drop one leading `p`/`P`, keep the digits, and
parse them (`None` if no digit remains). -/
def extract_numeric_product_id (product_id : Value) : Option Nat :=
  if truthy product_id = false then none
  else
    let ds := normDigits product_id
    if ds.isEmpty then none else some (digitsToNat ds)

/-- The raw product identifier read by `enrich_sales_data`:
`t.get("ProductID") or t.get("product_id") or t.get("productId")`. -/
def pidRaw (t : Rec) : Value :=
  pyOr (rgetN t "ProductID") (pyOr (rgetN t "product_id") (rgetN t "productId"))

/-- The no-match branch of `enrich_sales_data`: all three API fields
set to `None` and `API_Match` set to `False`. -/
def noMatch (t : Rec) : Rec :=
  rset (rset (rset (rset t "API_Category" vNone) "API_Brand" vNone) "API_Rating" vNone)
    "API_Match" (vBool false)

/-- The per-transaction body of `enrich_sales_data`. -/
def enrichOne (t : Rec) (m : PMap) : Rec :=
  match extract_numeric_product_id (pidRaw t) with
  | some n =>
    match alookup (n : Int) m with
    | some info =>
      rset (rset (rset (rset t "API_Category" info.category) "API_Brand" info.brand)
        "API_Rating" info.rating) "API_Match" (vBool true)
    | none => noMatch t
  | none => noMatch t

/-- `enrich_sales_data(transactions, product_mapping)`: one enriched
copy per input transaction, in input order. -/
def enrich_sales_data (transactions : List Rec) (product_mapping : PMap) : List Rec :=
  transactions.map (fun t => enrichOne t product_mapping)

/-! ## `src/utlis/data_processor.py` -/

/-- The two monetary coercions shared by every aggregate:
`int(t.get("Quantity", 0))` and `float(t.get("UnitPrice", 0))`.
`none` models the exception caught by the per-record `except: continue`. -/
def coerceQP (t : Rec) : Option (Int × ℚ) :=
  match pyInt (rgetD t "Quantity" (vInt 0)), pyFloat (rgetD t "UnitPrice" (vInt 0)) with
  | some q, some p => some (q, p)
  | _, _ => none

/-- The revenue a single transaction contributes (0 when it is skipped). -/
def amount (t : Rec) : ℚ :=
  match coerceQP t with
  | some (q, p) => (q : ℚ) * p
  | none => 0

/-- Accumulator loop of `calculate_total_revenue`. -/
def ctrGo (total : ℚ) : List Rec → ℚ
  | [] => total
  | t :: rest =>
    match coerceQP t with
    | some (q, p) => ctrGo (total + (q : ℚ) * p) rest
    | none => ctrGo total rest

/-- `calculate_total_revenue(transactions)`. -/
def calculate_total_revenue (transactions : List Rec) : ℚ := ctrGo 0 transactions

/-- The grouping loop shared by the aggregates: for each transaction
whose two monetary coercions succeed, update the accumulator stored
under its group key in an insertion-ordered dict (`defaultdict`);
transactions failing a coercion are skipped. -/
def aggFold {A : Type} (key : Rec → Value) (upd : Rec → Int → ℚ → A → A) (init : A) :
    List Rec → List (Value × A) → List (Value × A)
  | [], m => m
  | t :: rest, m =>
    match coerceQP t with
    | some (q, p) => aggFold key upd init rest (aupd m (key t) (upd t q p) init)
    | none => aggFold key upd init rest m

/-- Per-region accumulator of `region_wise_sales`. -/
structure RegionAcc where
  total_sales : ℚ
  transaction_count : Nat
deriving DecidableEq

/-- Group key of `region_wise_sales`: `t.get("Region", "Unknown")`. -/
def regionKey (t : Rec) : Value := rgetD t "Region" (vStr "Unknown".toList)

/-- Accumulator update of `region_wise_sales`. -/
def regionUpd (_ : Rec) (q : Int) (p : ℚ) (a : RegionAcc) : RegionAcc :=
  { total_sales := a.total_sales + (q : ℚ) * p
    transaction_count := a.transaction_count + 1 }

/-- One entry of the `region_wise_sales` result. -/
structure RegionStats where
  total_sales : ℚ
  transaction_count : Nat
  percentage : ℚ
deriving DecidableEq

/-- `region_wise_sales(transactions)`: per-region totals and counts,
percentage of the overall total (0 when the overall total is falsy),
sorted by (unrounded) total sales descending, totals rounded last. -/
def region_wise_sales (transactions : List Rec) : List (Value × RegionStats) :=
  let overall := calculate_total_revenue transactions
  let grouped := aggFold regionKey regionUpd ⟨0, 0⟩ transactions []
  let withPct : List (Value × RegionStats) := grouped.map (fun e =>
    (e.1,
      { total_sales := e.2.total_sales
        transaction_count := e.2.transaction_count
        percentage := round2 (if overall = 0 then 0 else e.2.total_sales / overall * 100) }))
  let sortedL :=
    List.insertionSort (fun e f : Value × RegionStats => f.2.total_sales ≤ e.2.total_sales) withPct
  sortedL.map (fun e => (e.1, { e.2 with total_sales := round2 e.2.total_sales }))

/-- Per-product accumulator of `top_selling_products`. -/
structure ProdAcc where
  qty : Int
  revenue : ℚ
deriving DecidableEq

/-- Group key of the product aggregates: `t.get("ProductName", "Unknown")`. -/
def prodKey (t : Rec) : Value := rgetD t "ProductName" (vStr "Unknown".toList)

/-- Accumulator update of the product aggregates. -/
def prodUpd (_ : Rec) (q : Int) (p : ℚ) (a : ProdAcc) : ProdAcc :=
  { qty := a.qty + q, revenue := a.revenue + (q : ℚ) * p }

/-- The `items` list of `top_selling_products`: one tuple
`(name, total qty, rounded revenue)` per product, in the order product
names were first (successfully) encountered. -/
def prodItems (ts : List Rec) : List (Value × Int × ℚ) :=
  (aggFold prodKey prodUpd ⟨0, 0⟩ ts []).map (fun e => (e.1, e.2.qty, round2 e.2.revenue))

/-- Sort relation of `top_selling_products`: total quantity descending. -/
def itemGe (a b : Value × Int × ℚ) : Prop := b.2.1 ≤ a.2.1

instance : DecidableRel itemGe := fun a b => inferInstanceAs (Decidable (b.2.1 ≤ a.2.1))

instance : IsTotal (Value × Int × ℚ) itemGe := ⟨fun a b => (le_total b.2.1 a.2.1).imp id id⟩

instance : IsTrans (Value × Int × ℚ) itemGe := ⟨fun _ _ _ h h' => le_trans h' h⟩

/-- `top_selling_products(transactions, n)`: per-product totals, sorted
by quantity descending (stable), first `n` kept. -/
def top_selling_products (ts : List Rec) (n : Nat) : List (Value × Int × ℚ) :=
  (List.insertionSort itemGe (prodItems ts)).take n

/-- Per-customer accumulator of `customer_analysis`. -/
structure CustAcc where
  total_spent : ℚ
  purchase_count : Nat
  products : List Value
deriving DecidableEq

/-- Group key of `customer_analysis`: `t.get("CustomerID", "Unknown")`. -/
def custKey (t : Rec) : Value := rgetD t "CustomerID" (vStr "Unknown".toList)

/-- `set.add`: append when absent (the set is sorted later anyway). -/
def setAdd (l : List Value) (v : Value) : List Value := if v ∈ l then l else l ++ [v]

/-- Accumulator update of `customer_analysis`. -/
def custUpd (t : Rec) (q : Int) (p : ℚ) (a : CustAcc) : CustAcc :=
  { total_spent := a.total_spent + (q : ℚ) * p
    purchase_count := a.purchase_count + 1
    products := setAdd a.products (prodKey t) }

/-- One entry of the `customer_analysis` result. -/
structure CustStats where
  total_spent : ℚ
  purchase_count : Nat
  avg_order_value : ℚ
  products_bought : List Value
deriving DecidableEq

/-- `customer_analysis(transactions)`: per-customer spend, count,
average order value and sorted distinct product names, sorted by
rounded total spent descending. -/
def customer_analysis (ts : List Rec) : List (Value × CustStats) :=
  let grouped := aggFold custKey custUpd ⟨0, 0, []⟩ ts []
  let tuples : List (Value × CustStats) := grouped.map (fun e =>
    (e.1,
      { total_spent := round2 e.2.total_spent
        purchase_count := e.2.purchase_count
        avg_order_value :=
          round2 (if e.2.purchase_count = 0 then 0
            else e.2.total_spent / (e.2.purchase_count : ℚ))
        products_bought :=
          List.insertionSort (fun a b => valueLeB a b = true) e.2.products }))
  List.insertionSort (fun e f : Value × CustStats => f.2.total_spent ≤ e.2.total_spent) tuples

/-- Per-date accumulator of `daily_sales_trend`. -/
structure DailyAcc where
  revenue : ℚ
  transaction_count : Nat
  customers : List Value
deriving DecidableEq

/-- Group key of `daily_sales_trend`: `t.get("Date", "Unknown")`. -/
def dateKey (t : Rec) : Value := rgetD t "Date" (vStr "Unknown".toList)

/-- Accumulator update of `daily_sales_trend`. -/
def dailyUpd (t : Rec) (q : Int) (p : ℚ) (a : DailyAcc) : DailyAcc :=
  { revenue := a.revenue + (q : ℚ) * p
    transaction_count := a.transaction_count + 1
    customers := setAdd a.customers (custKey t) }

/-- One entry of the `daily_sales_trend` result. -/
structure DailyStats where
  revenue : ℚ
  transaction_count : Nat
  unique_customers : Nat
deriving DecidableEq

/-- Ascending-key order on grouped daily entries (`sorted(daily.keys())`). -/
def dateEntryLe (e f : Value × DailyAcc) : Prop := valueLeB e.1 f.1 = true

instance : DecidableRel dateEntryLe := fun e f =>
  inferInstanceAs (Decidable (valueLeB e.1 f.1 = true))

/-- `daily_sales_trend(transactions)`: per-date revenue (rounded),
transaction count and distinct-customer count, entries in ascending
key order (`sorted(daily.keys())`; the grouped keys are distinct, so
sorting the entries by key is the same thing). -/
def daily_sales_trend (ts : List Rec) : List (Value × DailyStats) :=
  let grouped := aggFold dateKey dailyUpd ⟨0, 0, []⟩ ts []
  let sortedL := List.insertionSort dateEntryLe grouped
  sortedL.map (fun e =>
    (e.1,
      { revenue := round2 e.2.revenue
        transaction_count := e.2.transaction_count
        unique_customers := e.2.customers.length }))

/-- The best-so-far loop of `find_peak_sales_day`, updating only on a
strictly greater revenue. -/
def peakFold : List (Value × DailyStats) → Option Value × ℚ × Nat → Option Value × ℚ × Nat
  | [], acc => acc
  | (d, st) :: rest, (bd, br, bc) =>
    if br < st.revenue then peakFold rest (some d, st.revenue, st.transaction_count)
    else peakFold rest (bd, br, bc)

/-- `find_peak_sales_day(transactions)`: scan the daily trend starting
from best revenue `-1`; return `("N/A", 0.0, 0)` when no date was ever
selected. -/
def find_peak_sales_day (ts : List Rec) : Value × ℚ × Nat :=
  match peakFold (daily_sales_trend ts) (none, -1, 0) with
  | (none, _, _) => (vStr "N/A".toList, 0, 0)
  | (some d, br, bc) => (d, br, bc)

/-! ## Association-list lemmas -/

theorem alookup_aupd_self {K A : Type} [DecidableEq K] (m : List (K × A)) (k : K)
    (f : A → A) (init : A) :
    alookup k (aupd m k f init) = some (f ((alookup k m).getD init)) := by
  induction m with
  | nil => simp [aupd, alookup]
  | cons e rest ih =>
    obtain ⟨k', a⟩ := e
    by_cases h : k = k' <;> simp [aupd, alookup, h, ih]

theorem alookup_aupd_ne {K A : Type} [DecidableEq K] (m : List (K × A)) {k k' : K}
    (f : A → A) (init : A) (h : k' ≠ k) :
    alookup k' (aupd m k f init) = alookup k' m := by
  induction m with
  | nil => simp [aupd, alookup, h]
  | cons e rest ih =>
    obtain ⟨k'', a⟩ := e
    by_cases h2 : k = k''
    · subst h2
      simp [aupd, alookup, h]
    · by_cases h3 : k' = k'' <;> simp [aupd, alookup, h2, h3, ih]

theorem aupd_keys {K A : Type} [DecidableEq K] (m : List (K × A)) (k : K) (f : A → A)
    (init : A) :
    (aupd m k f init).map Prod.fst = if k ∈ m.map Prod.fst then m.map Prod.fst
      else m.map Prod.fst ++ [k] := by
  induction m with
  | nil => simp [aupd]
  | cons e rest ih =>
    obtain ⟨k', a⟩ := e
    by_cases h : k = k'
    · subst h
      simp [aupd]
    · simp [aupd, h, ih]
      by_cases h2 : k ∈ rest.map Prod.fst <;> simp [h2, h]

theorem aupd_nodup {K A : Type} [DecidableEq K] (m : List (K × A)) (k : K) (f : A → A)
    (init : A) (h : (m.map Prod.fst).Nodup) :
    ((aupd m k f init).map Prod.fst).Nodup := by
  rw [aupd_keys]
  by_cases h2 : k ∈ m.map Prod.fst <;> simp [h2, h, List.Nodup.append, List.disjoint_singleton]

theorem alookup_perm {K A : Type} [DecidableEq K] {l₁ l₂ : List (K × A)} (hp : l₁.Perm l₂)
    (hn : (l₁.map Prod.fst).Nodup) (k : K) : alookup k l₁ = alookup k l₂ := by
  induction hp with
  | nil => rfl
  | cons x _ ih =>
    obtain ⟨k', a⟩ := x
    simp only [List.map_cons, List.nodup_cons] at hn
    by_cases h : k = k' <;> simp [alookup, h, ih hn.2]
  | swap x y l =>
    obtain ⟨k1, a1⟩ := x
    obtain ⟨k2, a2⟩ := y
    simp only [List.map_cons, List.nodup_cons, List.mem_cons] at hn
    have h12 : k2 ≠ k1 := fun h => hn.1 (Or.inl h)
    by_cases h1 : k = k1 <;> by_cases h2 : k = k2 <;>
      simp_all [alookup]
  | trans p1 _p2 ih1 ih2 =>
    exact (ih1 hn).trans (ih2 ((p1.map Prod.fst).nodup hn))

theorem alookup_map_pair {K A B : Type} [DecidableEq K] (m : List (K × A)) (g : K × A → B)
    (k : K) :
    alookup k (m.map (fun e => (e.1, g e))) = (alookup k m).map (fun a => g (k, a)) := by
  induction m with
  | nil => rfl
  | cons e rest ih =>
    obtain ⟨k', a⟩ := e
    by_cases h : k = k' <;> simp [alookup, h, ih]

/-! ## Grouping-fold lemmas -/

theorem aggFold_nodup {A : Type} (key : Rec → Value) (upd : Rec → Int → ℚ → A → A)
    (init : A) (ts : List Rec) (m : List (Value × A)) (h : (m.map Prod.fst).Nodup) :
    ((aggFold key upd init ts m).map Prod.fst).Nodup := by
  induction ts generalizing m with
  | nil => exact h
  | cons t rest ih =>
    match hc : coerceQP t with
    | some (q, p) =>
      simp only [aggFold, hc]
      exact ih _ (aupd_nodup _ _ _ _ h)
    | none =>
      simp only [aggFold, hc]
      exact ih _ h

theorem aggFold_count {A : Type} (key : Rec → Value) (upd : Rec → Int → ℚ → A → A)
    (init : A) (cnt : A → Nat) (hupd : ∀ t q p a, cnt (upd t q p a) = cnt a + 1)
    (hinit : cnt init = 0) (ts : List Rec) (m : List (Value × A)) (k : Value) :
    ((alookup k (aggFold key upd init ts m)).map cnt).getD 0 =
      ((alookup k m).map cnt).getD 0 +
        ts.countP (fun t => (coerceQP t).isSome && decide (key t = k)) := by
  induction ts generalizing m with
  | nil => simp [aggFold]
  | cons t rest ih =>
    match hc : coerceQP t with
    | some (q, p) =>
      simp only [aggFold, hc]
      rw [ih]
      by_cases hk : key t = k
      · subst hk
        rw [List.countP_cons, alookup_aupd_self]
        cases halook : alookup (key t) m <;> simp [halook, hinit, hupd, hc] <;> omega
      · rw [List.countP_cons]
        simp only [hc, Option.isSome_some, Bool.true_and]
        rw [alookup_aupd_ne _ _ _ (fun h => hk h.symm)]
        simp [hk]
    | none =>
      simp only [aggFold, hc]
      rw [ih, List.countP_cons]
      simp [hc]

/-! ## Revenue lemmas -/

theorem ctrGo_eq (ts : List Rec) (a : ℚ) : ctrGo a ts = a + (ts.map amount).sum := by
  induction ts generalizing a with
  | nil => simp [ctrGo]
  | cons t rest ih =>
    match hc : coerceQP t with
    | some (q, p) =>
      simp only [ctrGo, hc, ih, List.map_cons, List.sum_cons, amount]
      ring
    | none =>
      simp only [ctrGo, hc, ih, List.map_cons, List.sum_cons, amount]
      ring

theorem calculate_total_revenue_eq_sum (ts : List Rec) :
    calculate_total_revenue ts = (ts.map amount).sum := by
  simp [calculate_total_revenue, ctrGo_eq]

/-! ## Decimal-rendering lemmas -/

theorem isDigit_digitChar (d : Nat) : (digitChar d).isDigit = true := by
  rcases d with _ | _ | _ | _ | _ | _ | _ | _ | _ | d <;> rfl

theorem digitVal_digitChar {d : Nat} (h : d < 10) : digitVal (digitChar d) = d := by
  interval_cases d <;> decide

theorem natReprAux_ne_nil (fuel n : Nat) : natReprAux (fuel + 1) n ≠ [] := by
  rw [natReprAux]
  by_cases h : n < 10 <;> simp [h]

theorem mem_natReprAux_isDigit (fuel n : Nat) (c : Char) (h : c ∈ natReprAux fuel n) :
    c.isDigit = true := by
  induction fuel generalizing n with
  | zero => simp [natReprAux] at h
  | succ fuel ih =>
    rw [natReprAux] at h
    by_cases h10 : n < 10
    · simp [h10] at h
      subst h
      exact isDigit_digitChar n
    · simp [h10, List.mem_append] at h
      rcases h with h | h
      · exact ih _ h
      · subst h
        exact isDigit_digitChar (n % 10)

theorem digitsToNat_append_singleton (xs : List Char) (c : Char) :
    digitsToNat (xs ++ [c]) = 10 * digitsToNat xs + digitVal c := by
  simp [digitsToNat, List.foldl_append]

theorem digitsToNat_natReprAux (fuel n : Nat) (h : n < fuel) :
    digitsToNat (natReprAux fuel n) = n := by
  induction fuel generalizing n with
  | zero => omega
  | succ fuel ih =>
    rw [natReprAux]
    by_cases h10 : n < 10
    · simp [h10, digitsToNat, digitVal_digitChar h10]
    · have hdiv : n / 10 < fuel := by omega
      simp only [h10, if_false, digitsToNat_append_singleton, ih _ hdiv,
        digitVal_digitChar (Nat.mod_lt n (by omega))]
      omega

theorem natRepr_ne_nil (n : Nat) : natRepr n ≠ [] := natReprAux_ne_nil n n

theorem mem_natRepr_isDigit (n : Nat) (c : Char) (h : c ∈ natRepr n) : c.isDigit = true :=
  mem_natReprAux_isDigit (n + 1) n c h

theorem digitsToNat_natRepr (n : Nat) : digitsToNat (natRepr n) = n :=
  digitsToNat_natReprAux (n + 1) n (Nat.lt_succ_self n)

/-! ## Normalization lemmas for all-digit strings -/

theorem isPySpace_eq_false_of_isDigit {c : Char} (h : c.isDigit = true) :
    isPySpace c = false := by
  by_contra hne
  rw [Bool.not_eq_false] at hne
  simp only [isPySpace, Bool.or_eq_true, decide_eq_true_eq] at hne
  rcases hne with ((((h1 | h1) | h1) | h1) | h1) | h1 <;> (subst h1; revert h; decide)

theorem dropWhile_isPySpace_of_digits (s : List Char) (h : ∀ c ∈ s, c.isDigit = true) :
    s.dropWhile isPySpace = s := by
  cases s with
  | nil => rfl
  | cons c rest =>
    rw [List.dropWhile_cons, isPySpace_eq_false_of_isDigit (h c (List.mem_cons_self c rest))]
    simp

theorem pyStrip_of_digits (s : List Char) (h : ∀ c ∈ s, c.isDigit = true) :
    pyStrip s = s := by
  unfold pyStrip
  rw [dropWhile_isPySpace_of_digits s h,
    dropWhile_isPySpace_of_digits s.reverse (fun c hc => h c (List.mem_reverse.mp hc)),
    List.reverse_reverse]

theorem not_pP_of_isDigit {c : Char} (h : c.isDigit = true) :
    (c = 'p' || c = 'P') = false := by
  by_contra hne
  rw [Bool.not_eq_false] at hne
  simp only [Bool.or_eq_true, decide_eq_true_eq] at hne
  rcases hne with h1 | h1 <;> (subst h1; revert h; decide)

theorem stripLeadP_of_digits (s : List Char) (h : ∀ c ∈ s, c.isDigit = true) :
    stripLeadP s = s := by
  cases s with
  | nil => rfl
  | cons c rest =>
    rw [stripLeadP, not_pP_of_isDigit (h c (List.mem_cons_self c rest))]
    simp

theorem extract_natRepr (n : Nat) :
    extract_numeric_product_id (vStr (natRepr n)) = some n := by
  have hd : ∀ c ∈ natRepr n, c.isDigit = true := mem_natRepr_isDigit n
  have hne : natRepr n ≠ [] := natRepr_ne_nil n
  rw [extract_numeric_product_id]
  have htr : truthy (vStr (natRepr n)) = true := by
    simp [truthy, List.isEmpty_iff, hne]
  rw [htr]
  simp only [Bool.true_eq_false, if_false, normDigits, pyStr,
    pyStrip_of_digits _ hd, stripLeadP_of_digits _ hd, List.filter_eq_self.mpr hd]
  simp [List.isEmpty_iff, hne, digitsToNat_natRepr]

/-! ## Order lemmas for sorting -/

theorem lexLe_total (a b : List Char) : lexLe a b = true ∨ lexLe b a = true := by
  induction a generalizing b with
  | nil => exact Or.inl rfl
  | cons c as ih =>
    cases b with
    | nil => exact Or.inr rfl
    | cons d bs =>
      rcases Nat.lt_trichotomy c.toNat d.toNat with h | h | h
      · exact Or.inl (by simp [lexLe, h])
      · have h2 : ¬ c.toNat < d.toNat := by omega
        have h3 : ¬ d.toNat < c.toNat := by omega
        rcases ih bs with h4 | h4
        · exact Or.inl (by simp [lexLe, h2, h3, h4])
        · exact Or.inr (by simp [lexLe, h2, h3, h4])
      · exact Or.inr (by simp [lexLe, h])

theorem lexLe_trans {a b c : List Char} (h1 : lexLe a b = true) (h2 : lexLe b c = true) :
    lexLe a c = true := by
  induction a generalizing b c with
  | nil => rfl
  | cons x as ih =>
    cases b with
    | nil => simp [lexLe] at h1
    | cons y bs =>
      cases c with
      | nil => simp [lexLe] at h2
      | cons z cs =>
        simp only [lexLe] at h1 h2 ⊢
        by_cases hxy : x.toNat < y.toNat
        · by_cases hyz : y.toNat < z.toNat
          · simp [show x.toNat < z.toNat by omega]
          · by_cases hzy : z.toNat < y.toNat
            · simp [hyz, hzy] at h2
            · simp [show x.toNat < z.toNat by omega]
        · by_cases hyx : y.toNat < x.toNat
          · simp [hxy, hyx] at h1
          · simp only [hxy, hyx, if_false] at h1
            by_cases hyz : y.toNat < z.toNat
            · simp [show x.toNat < z.toNat by omega]
            · by_cases hzy : z.toNat < y.toNat
              · simp [hyz, hzy] at h2
              · simp only [hyz, hzy, if_false] at h2
                have hxz : ¬ x.toNat < z.toNat := by omega
                have hzx : ¬ z.toNat < x.toNat := by omega
                simp [hxz, hzx, ih h1 h2]

theorem valueLeB_total (a b : Value) : valueLeB a b = true ∨ valueLeB b a = true := by
  cases a <;> cases b <;>
    first
    | exact Or.inl rfl
    | exact Or.inr rfl
    | skip
  case vBool.vBool x y =>
    cases x <;> cases y <;> first | exact Or.inl rfl | exact Or.inr rfl
  case vInt.vInt x y =>
    rcases Int.le_total x y with h | h
    · exact Or.inl (by simp [valueLeB, h])
    · exact Or.inr (by simp [valueLeB, h])
  case vStr.vStr x y => exact lexLe_total x y

theorem valueLeB_trans {a b c : Value} (h1 : valueLeB a b = true) (h2 : valueLeB b c = true) :
    valueLeB a c = true := by
  cases a <;> cases b <;> cases c <;>
    simp only [valueLeB, valueRank, decide_eq_true_eq, Bool.or_eq_true] at h1 h2 ⊢ <;>
    first
    | rfl
    | omega
    | exact lexLe_trans h1 h2
    | exact absurd h1 (by decide)
    | exact absurd h2 (by decide)
    | skip
  case vBool.vBool.vBool x y z =>
    revert h1 h2
    cases x <;> cases y <;> cases z <;> decide

instance : IsTotal (Value × DailyAcc) dateEntryLe := ⟨fun a b => valueLeB_total a.1 b.1⟩

instance : IsTrans (Value × DailyAcc) dateEntryLe := ⟨fun _ _ _ h1 h2 => valueLeB_trans h1 h2⟩

/-! ## Stability of the quantity-descending sort -/

theorem filter_orderedInsert_key (x : Value × Int × ℚ) (l : List (Value × Int × ℚ)) (q : Int) :
    (l.orderedInsert itemGe x).filter (fun e => decide (e.2.1 = q)) =
      if x.2.1 = q then x :: l.filter (fun e => decide (e.2.1 = q))
      else l.filter (fun e => decide (e.2.1 = q)) := by
  induction l with
  | nil => by_cases h : x.2.1 = q <;> simp [List.orderedInsert, List.filter, h]
  | cons y ys ih =>
    by_cases hr : itemGe x y
    · rw [List.orderedInsert, if_pos hr]
      by_cases h : x.2.1 = q <;> simp [List.filter_cons, h]
    · rw [List.orderedInsert, if_neg hr]
      have hlt : x.2.1 < y.2.1 := lt_of_not_le hr
      by_cases h : x.2.1 = q
      · have hy : ¬ y.2.1 = q := by rw [← h]; omega
        simp [List.filter_cons, hy, ih, h]
      · by_cases hy : y.2.1 = q <;> simp [List.filter_cons, hy, ih, h]

theorem filter_insertionSort_key (l : List (Value × Int × ℚ)) (q : Int) :
    (List.insertionSort itemGe l).filter (fun e => decide (e.2.1 = q)) =
      l.filter (fun e => decide (e.2.1 = q)) := by
  induction l with
  | nil => rfl
  | cons x xs ih =>
    rw [List.insertionSort, filter_orderedInsert_key]
    by_cases h : x.2.1 = q <;> simp [List.filter_cons, h, ih]

/-! ## Peak-day fold lemmas -/

theorem peakFold_const (l : List (Value × DailyStats)) (bd : Option Value) (br : ℚ) (bc : Nat)
    (h : ∀ x ∈ l, x.2.revenue ≤ br) : peakFold l (bd, br, bc) = (bd, br, bc) := by
  induction l with
  | nil => rfl
  | cons e rest ih =>
    obtain ⟨d, st⟩ := e
    rw [peakFold, if_neg (not_lt.mpr (h (d, st) (List.mem_cons_self _ _)))]
    exact ih (fun x hx => h x (List.mem_cons_of_mem _ hx))

theorem peakFold_argmax (l : List (Value × DailyStats)) (bd : Option Value) (br : ℚ) (bc : Nat)
    (h : ∃ x ∈ l, br < x.2.revenue) :
    ∃ e pre post, l = pre ++ e :: post ∧ (∀ x ∈ pre, x.2.revenue < e.2.revenue) ∧
      (∀ x ∈ post, x.2.revenue ≤ e.2.revenue) ∧ br < e.2.revenue ∧
      peakFold l (bd, br, bc) = (some e.1, e.2.revenue, e.2.transaction_count) := by
  induction l generalizing bd br bc with
  | nil => simp at h
  | cons y rest ih =>
    obtain ⟨d, st⟩ := y
    by_cases hy : br < st.revenue
    · rw [peakFold, if_pos hy]
      by_cases hrest : ∃ x ∈ rest, st.revenue < x.2.revenue
      · obtain ⟨e, pre, post, heq, hpre, hpost, hbr, hfold⟩ :=
          ih (some d) st.revenue st.transaction_count hrest
        refine ⟨e, (d, st) :: pre, post, by simp [heq], ?_, hpost, lt_trans hy hbr, hfold⟩
        intro x hx
        rcases List.mem_cons.mp hx with h1 | h1
        · rw [h1]; exact hbr
        · exact hpre x h1
      · push_neg at hrest
        rw [peakFold_const rest _ _ _ hrest]
        exact ⟨(d, st), [], rest, rfl, by simp, hrest, hy, rfl⟩
    · rw [peakFold, if_neg hy]
      have hrest : ∃ x ∈ rest, br < x.2.revenue := by
        rcases h with ⟨x, hx, hlt⟩
        rcases List.mem_cons.mp hx with h1 | h1
        · rw [h1] at hlt; exact absurd hlt hy
        · exact ⟨x, h1, hlt⟩
      obtain ⟨e, pre, post, heq, hpre, hpost, hbr, hfold⟩ := ih bd br bc hrest
      refine ⟨e, (d, st) :: pre, post, by simp [heq], ?_, hpost, hbr, hfold⟩
      intro x hx
      rcases List.mem_cons.mp hx with h1 | h1
      · rw [h1]; exact lt_of_le_of_lt (not_lt.mp hy) hbr
      · exact hpre x h1

/-! ## Mapping-builder lemmas -/

theorem getLast?_cons_eq {α : Type} (a : α) (l : List α) :
    (a :: l).getLast? = some ((l.getLast?).getD a) := by
  induction l generalizing a with
  | nil => rfl
  | cons b bs ih =>
    rw [List.getLast?_cons_cons, ih b]
    rfl

theorem cpmGo_isSome (ps : List Rec) (m : PMap) :
    (cpmGo m ps).isSome = true ↔
      ∀ p ∈ ps, rgetN p "id" = vNone ∨ (pyInt (rgetN p "id")).isSome = true := by
  induction ps generalizing m with
  | nil => simp [cpmGo]
  | cons p rest ih =>
    rw [cpmGo]
    by_cases hid : rgetN p "id" = vNone
    · rw [if_pos hid]
      simp [ih, hid]
    · rw [if_neg hid]
      cases hp : pyInt (rgetN p "id") with
      | none => simp [hid, hp]
      | some k => simp [ih, hid, hp]

theorem cpmGo_lookup (ps : List Rec) (m m' : PMap) (h : cpmGo m ps = some m') (k : Int) :
    alookup k m' =
      ((ps.filter (fun p => decide (entryKey p = some k))).getLast?).elim
        (alookup k m) (fun p => some (infoOf p)) := by
  induction ps generalizing m with
  | nil =>
    rw [cpmGo] at h
    injection h with h
    subst h
    rfl
  | cons p rest ih =>
    rw [cpmGo] at h
    by_cases hid : rgetN p "id" = vNone
    · rw [if_pos hid] at h
      have hek : ¬ entryKey p = some k := by simp [entryKey, hid]
      rw [List.filter_cons_of_neg (by simp [hek])]
      exact ih _ h
    · rw [if_neg hid] at h
      cases hp : pyInt (rgetN p "id") with
      | none =>
        rw [hp] at h
        exact absurd h (by simp)
      | some k' =>
        rw [hp] at h
        have hek : entryKey p = some k' := by simp [entryKey, hid, hp]
        by_cases hkk : k' = k
        · subst hkk
          rw [List.filter_cons_of_pos (by simp [hek]), getLast?_cons_eq, ih _ h]
          cases hfl : (rest.filter (fun p => decide (entryKey p = some k'))).getLast? with
          | none => simp [alookup_aupd_self]
          | some p2 => simp
        · rw [List.filter_cons_of_neg (by simp [hek, hkk]), ih _ h,
            alookup_aupd_ne _ _ _ (fun hc => hkk hc.symm)]

theorem cpmGo_nodup (ps : List Rec) (m m' : PMap) (hn : (m.map Prod.fst).Nodup)
    (h : cpmGo m ps = some m') : (m'.map Prod.fst).Nodup := by
  induction ps generalizing m with
  | nil =>
    rw [cpmGo] at h
    injection h with h
    subst h
    exact hn
  | cons p rest ih =>
    rw [cpmGo] at h
    by_cases hid : rgetN p "id" = vNone
    · rw [if_pos hid] at h
      exact ih _ hn h
    · rw [if_neg hid] at h
      cases hp : pyInt (rgetN p "id") with
      | none =>
        rw [hp] at h
        exact absurd h (by simp)
      | some k =>
        rw [hp] at h
        exact ih _ (aupd_nodup _ _ _ _ hn) h

/-! ## Record-update lemmas -/

theorem rget_rset_self (t : Rec) (k : String) (v : Value) : rget (rset t k v) k = some v := by
  rw [rset, rget, alookup_aupd_self]

theorem rget_rset_ne (t : Rec) {k k' : String} (v : Value) (h : k' ≠ k) :
    rget (rset t k v) k' = rget t k' := by
  rw [rset, rget, alookup_aupd_ne _ _ _ h, rget]

theorem rget_noMatch_ne (t : Rec) {k : String} (h1 : k ≠ "API_Category")
    (h2 : k ≠ "API_Brand") (h3 : k ≠ "API_Rating") (h4 : k ≠ "API_Match") :
    rget (noMatch t) k = rget t k := by
  rw [noMatch, rget_rset_ne _ _ h4, rget_rset_ne _ _ h3, rget_rset_ne _ _ h2,
    rget_rset_ne _ _ h1]

theorem rget_enrichOne_ne (t : Rec) (m : PMap) {k : String} (h1 : k ≠ "API_Category")
    (h2 : k ≠ "API_Brand") (h3 : k ≠ "API_Rating") (h4 : k ≠ "API_Match") :
    rget (enrichOne t m) k = rget t k := by
  cases hx : extract_numeric_product_id (pidRaw t) with
  | none =>
    simp only [enrichOne, hx]
    exact rget_noMatch_ne t h1 h2 h3 h4
  | some n =>
    cases hm : alookup (n : Int) m with
    | none =>
      simp only [enrichOne, hx, hm]
      exact rget_noMatch_ne t h1 h2 h3 h4
    | some info =>
      simp only [enrichOne, hx, hm]
      rw [rget_rset_ne _ _ h4, rget_rset_ne _ _ h3, rget_rset_ne _ _ h2, rget_rset_ne _ _ h1]

/-! ## Lookup through the aggregate post-processing -/

theorem map_fst_map_pair {K A B : Type} (m : List (K × A)) (g : K × A → B) :
    (m.map (fun e => (e.1, g e))).map Prod.fst = m.map Prod.fst := by
  simp [List.map_map]

theorem alookup_insertionSort {A : Type} (r : (Value × A) → (Value × A) → Prop)
    [DecidableRel r] (m : List (Value × A)) (hn : (m.map Prod.fst).Nodup) (k : Value) :
    alookup k (List.insertionSort r m) = alookup k m :=
  alookup_perm (List.perm_insertionSort r m)
    (((List.perm_insertionSort r m).map Prod.fst).symm.nodup hn) k

theorem region_lookup_count (ts : List Rec) (k : Value) :
    ((alookup k (region_wise_sales ts)).map RegionStats.transaction_count).getD 0 =
      ts.countP (fun t => (coerceQP t).isSome && decide (regionKey t = k)) := by
  have hbase := aggFold_count regionKey regionUpd ⟨0, 0⟩ RegionAcc.transaction_count
    (fun _ _ _ _ => rfl) rfl ts [] k
  have hnodup : ((aggFold regionKey regionUpd ⟨0, 0⟩ ts []).map Prod.fst).Nodup :=
    aggFold_nodup _ _ _ ts [] (by simp)
  simp only [region_wise_sales]
  rw [alookup_map_pair]
  rw [alookup_insertionSort _ _ (by rw [map_fst_map_pair]; exact hnodup)]
  rw [alookup_map_pair]
  rw [alookup, Option.map_none'] at hbase
  simp only [Option.getD_none, Nat.zero_add] at hbase
  rw [← hbase]
  cases alookup k (aggFold regionKey regionUpd ⟨0, 0⟩ ts []) <;> rfl

theorem customer_lookup_count (ts : List Rec) (k : Value) :
    ((alookup k (customer_analysis ts)).map CustStats.purchase_count).getD 0 =
      ts.countP (fun t => (coerceQP t).isSome && decide (custKey t = k)) := by
  have hbase := aggFold_count custKey custUpd ⟨0, 0, []⟩ CustAcc.purchase_count
    (fun _ _ _ _ => rfl) rfl ts [] k
  have hnodup : ((aggFold custKey custUpd ⟨0, 0, []⟩ ts []).map Prod.fst).Nodup :=
    aggFold_nodup _ _ _ ts [] (by simp)
  simp only [customer_analysis]
  rw [alookup_insertionSort _ _ (by rw [map_fst_map_pair]; exact hnodup)]
  rw [alookup_map_pair]
  rw [alookup, Option.map_none'] at hbase
  simp only [Option.getD_none, Nat.zero_add] at hbase
  rw [← hbase]
  cases alookup k (aggFold custKey custUpd ⟨0, 0, []⟩ ts []) <;> rfl

theorem daily_lookup_count (ts : List Rec) (k : Value) :
    ((alookup k (daily_sales_trend ts)).map DailyStats.transaction_count).getD 0 =
      ts.countP (fun t => (coerceQP t).isSome && decide (dateKey t = k)) := by
  have hbase := aggFold_count dateKey dailyUpd ⟨0, 0, []⟩ DailyAcc.transaction_count
    (fun _ _ _ _ => rfl) rfl ts [] k
  have hnodup : ((aggFold dateKey dailyUpd ⟨0, 0, []⟩ ts []).map Prod.fst).Nodup :=
    aggFold_nodup _ _ _ ts [] (by simp)
  simp only [daily_sales_trend]
  rw [alookup_map_pair]
  rw [alookup_insertionSort _ _ hnodup]
  rw [alookup, Option.map_none'] at hbase
  simp only [Option.getD_none, Nat.zero_add] at hbase
  rw [← hbase]
  cases alookup k (aggFold dateKey dailyUpd ⟨0, 0, []⟩ ts []) <;> rfl

theorem rget_set4 (t : Rec) (c b r mv : Value) :
    (rget (rset (rset (rset (rset t "API_Category" c) "API_Brand" b) "API_Rating" r)
        "API_Match" mv) "API_Category" = some c) ∧
    (rget (rset (rset (rset (rset t "API_Category" c) "API_Brand" b) "API_Rating" r)
        "API_Match" mv) "API_Brand" = some b) ∧
    (rget (rset (rset (rset (rset t "API_Category" c) "API_Brand" b) "API_Rating" r)
        "API_Match" mv) "API_Rating" = some r) ∧
    (rget (rset (rset (rset (rset t "API_Category" c) "API_Brand" b) "API_Rating" r)
        "API_Match" mv) "API_Match" = some mv) := by
  refine ⟨?_, ?_, ?_, ?_⟩
  · rw [rget_rset_ne _ _ (by decide), rget_rset_ne _ _ (by decide),
      rget_rset_ne _ _ (by decide), rget_rset_self]
  · rw [rget_rset_ne _ _ (by decide), rget_rset_ne _ _ (by decide), rget_rset_self]
  · rw [rget_rset_ne _ _ (by decide), rget_rset_self]
  · rw [rget_rset_self]

/-! ## Claim theorems -/

section ClaimTheorems

attribute [local semireducible] Rat.mul Rat.add Rat.inv Rat.sub

/-- C6: total revenue never raises and equals the sum of
quantity × unit price over exactly those transactions whose quantity
and unit-price coercions both succeed (`coerceQP`); a transaction for
which either coercion fails is filtered out and contributes nothing. -/
theorem C6_total_revenue_sum (ts : List Rec) :
    calculate_total_revenue ts =
      ((ts.filterMap coerceQP).map (fun qp => (qp.1 : ℚ) * qp.2)).sum := by
  rw [calculate_total_revenue_eq_sum]
  induction ts with
  | nil => rfl
  | cons t rest ih =>
    rw [List.map_cons, List.sum_cons, List.filterMap_cons]
    cases hc : coerceQP t with
    | none => simp [amount, hc, ih]
    | some qp =>
      obtain ⟨q, p⟩ := qp
      simp [amount, hc, ih]

/-- C9: identifier normalization is idempotent on its own output:
whenever normalization yields the integer `n`, normalizing the string
form of `n` yields `n` again. -/
theorem C9_extract_idempotent (v : Value) (n : Nat)
    (h : extract_numeric_product_id v = some n) :
    extract_numeric_product_id (vStr (pyStr (vInt (n : Int)))) = some n := by
  have hs : pyStr (vInt (n : Int)) = natRepr n := by
    rw [pyStr, intRepr, if_neg (by omega), Int.natAbs_ofNat]
  rw [hs]
  exact extract_natRepr n

/-- Witness for C9 at the concrete input "P101". -/
theorem C9_extract_idempotent_witness :
    extract_numeric_product_id (vStr (pyStr (vInt ((101 : Nat) : Int)))) = some 101 :=
  C9_extract_idempotent (vStr "P101".toList) 101 (by decide)

/-- C2 fails as stated: the input `0` (an integer product id) is
neither null nor empty and normalizes to the digit string "0", yet the
normalizer returns null, because the code tests Python truthiness
(`if not product_id`) rather than null/emptiness. -/
theorem C2_counterexample :
    extract_numeric_product_id (vInt 0) = none ∧ normDigits (vInt 0) = ['0'] := by
  constructor <;> decide

/-- C2 (amended): the normalizer returns null exactly when its input
is falsy (null, `False`, the number 0, or the empty string) or when no
digit character remains after normalization; for every other input it
returns the normalized digit string parsed as a base-10 unsigned
integer.  The authoritative examples all hold. -/
theorem C2_extract_amended :
    (∀ v : Value, extract_numeric_product_id v = none ↔
      (truthy v = false ∨ normDigits v = [])) ∧
    (∀ v : Value, truthy v = true → normDigits v ≠ [] →
      extract_numeric_product_id v = some (digitsToNat (normDigits v))) ∧
    extract_numeric_product_id (vStr "P101".toList) = some 101 ∧
    extract_numeric_product_id (vStr "p5".toList) = some 5 ∧
    extract_numeric_product_id (vStr "PROD-88".toList) = some 88 ∧
    extract_numeric_product_id (vStr "".toList) = none ∧
    extract_numeric_product_id vNone = none ∧
    extract_numeric_product_id (vStr "XYZ".toList) = none := by
  refine ⟨?_, ?_, by decide, by decide, by decide, by decide, by decide, by decide⟩
  · intro v
    rw [extract_numeric_product_id]
    by_cases ht : truthy v
    · by_cases hd : normDigits v = [] <;>
        simp [ht, hd, List.isEmpty_iff]
    · simp only [Bool.not_eq_true] at ht
      simp [ht]
  · intro v ht hd
    rw [extract_numeric_product_id, ht]
    simp [List.isEmpty_iff, hd]

/-- Witness for the conditional part of C2 at the concrete input "P7". -/
theorem C2_extract_amended_witness :
    extract_numeric_product_id (vStr "P7".toList) =
      some (digitsToNat (normDigits (vStr "P7".toList))) :=
  C2_extract_amended.2.1 (vStr "P7".toList) (by decide) (by decide)

/-- C3 fails as stated: an entry whose identifier is present but not
integer-parseable is not dropped silently — `int(pid)` has no
try/except around it, so the builder raises (modelled by `none`). -/
theorem C3_counterexample :
    create_product_mapping [[("id", vStr "abc".toList)]] = none := by
  decide

/-- C3 (amended): entries whose identifier is `None` (or absent) are
dropped silently, and the builder returns a mapping exactly when every
other entry's identifier is integer-coercible; an identifier that
cannot be parsed as an integer makes the builder raise. -/
theorem C3_mapping_total_amended (ps : List Rec) :
    (create_product_mapping ps).isSome = true ↔
      ∀ p ∈ ps, rgetN p "id" = vNone ∨ (pyInt (rgetN p "id")).isSome = true :=
  cpmGo_isSome ps []

/-- Witness for C3: a list with a `None` id and a parseable id builds. -/
theorem C3_mapping_total_amended_witness :
    (create_product_mapping [[("title", vStr "t".toList)], [("id", vInt 7)]]).isSome = true :=
  (C3_mapping_total_amended _).mpr (by decide)

/-- C7: when the builder succeeds, the mapping's keys are distinct
(exactly one entry per identifier) and each key maps to the info built
from the last entry contributing that identifier, in input order
(last-write-wins). -/
theorem C7_mapping_last_write_wins (ps : List Rec) (m : PMap)
    (h : create_product_mapping ps = some m) :
    (m.map Prod.fst).Nodup ∧
      ∀ k : Int, alookup k m =
        ((ps.filter (fun p => decide (entryKey p = some k))).getLast?).map infoOf := by
  refine ⟨cpmGo_nodup ps [] m (by simp) h, fun k => ?_⟩
  rw [cpmGo_lookup ps [] m h k]
  cases (ps.filter (fun p => decide (entryKey p = some k))).getLast? <;> rfl

/-- Witness for C7: duplicate identifier 1, the later entry wins. -/
theorem C7_mapping_last_write_wins_witness :
    alookup 1 [((1 : Int), infoOf [("id", vInt 1), ("brand", vStr "b".toList)])] =
      (([[("id", vInt 1), ("brand", vStr "a".toList)],
         [("id", vInt 1), ("brand", vStr "b".toList)]].filter
          (fun p => decide (entryKey p = some 1))).getLast?).map infoOf :=
  (C7_mapping_last_write_wins
    [[("id", vInt 1), ("brand", vStr "a".toList)], [("id", vInt 1), ("brand", vStr "b".toList)]]
    [(1, infoOf [("id", vInt 1), ("brand", vStr "b".toList)])] (by decide)).2 1

/-- C1 fails as stated: a catalog entry fetched without a brand stores
a null brand, and a transaction matching it is enriched with
`API_Match = True` while `API_Brand` is null — a state the claim
("all three data fields non-null when match is true") rules out. -/
theorem C1_counterexample :
    (create_product_mapping
        [[("id", vInt 101), ("title", vStr "T".toList), ("category", vStr "E".toList),
          ("price", vInt 10), ("rating", vInt 4)]]).map
      (fun m => (enrich_sales_data [[("ProductID", vStr "P101".toList)]] m).map
        (fun r => (rget r "API_Match", rget r "API_Brand"))) =
    some [(some (vBool true), some vNone)] := by
  decide

/-- C1 (amended): the four derived fields are set atomically by the
match outcome: on a match the three data fields equal the matched
catalog entry's category/brand/rating (each of which may itself be
null) and the flag is `True`; otherwise all three are null and the
flag is `False`.  No other combination occurs. -/
theorem C1_enrich_atomic_amended (t : Rec) (m : PMap) :
    (∃ n info, extract_numeric_product_id (pidRaw t) = some n ∧
      alookup (n : Int) m = some info ∧
      rget (enrichOne t m) "API_Category" = some info.category ∧
      rget (enrichOne t m) "API_Brand" = some info.brand ∧
      rget (enrichOne t m) "API_Rating" = some info.rating ∧
      rget (enrichOne t m) "API_Match" = some (vBool true)) ∨
    (rget (enrichOne t m) "API_Category" = some vNone ∧
      rget (enrichOne t m) "API_Brand" = some vNone ∧
      rget (enrichOne t m) "API_Rating" = some vNone ∧
      rget (enrichOne t m) "API_Match" = some (vBool false)) := by
  cases hx : extract_numeric_product_id (pidRaw t) with
  | none =>
    right
    simp only [enrichOne, hx, noMatch]
    exact rget_set4 t vNone vNone vNone (vBool false)
  | some n =>
    cases hm : alookup (n : Int) m with
    | none =>
      right
      simp only [enrichOne, hx, hm, noMatch]
      exact rget_set4 t vNone vNone vNone (vBool false)
    | some info =>
      left
      refine ⟨n, info, rfl, hm, ?_, ?_, ?_, ?_⟩ <;>
        simp only [enrichOne, hx, hm]
      · exact (rget_set4 t info.category info.brand info.rating (vBool true)).1
      · exact (rget_set4 t info.category info.brand info.rating (vBool true)).2.1
      · exact (rget_set4 t info.category info.brand info.rating (vBool true)).2.2.1
      · exact (rget_set4 t info.category info.brand info.rating (vBool true)).2.2.2

/-- C5 fails as stated: an input record carrying an original field
named `API_Match` does not keep its value — enrichment overwrites it. -/
theorem C5_counterexample :
    (enrich_sales_data [[("API_Match", vStr "x".toList)]] []).map
        (fun r => rget r "API_Match") ≠
      [rget [("API_Match", vStr "x".toList)] "API_Match"] := by
  decide

/-- C5 (amended): enrichment returns one output record per input
transaction, in input order, and every original field whose name is
not one of the four derived field names keeps its original value; the
four derived names are overwritten.  The input records themselves are
never mutated (each output is built from a copy). -/
theorem C5_enrich_frame_amended (ts : List Rec) (m : PMap) :
    (enrich_sales_data ts m).length = ts.length ∧
      ∀ i : Nat, ∀ k : String, k ≠ "API_Category" → k ≠ "API_Brand" → k ≠ "API_Rating" →
        k ≠ "API_Match" →
        ((enrich_sales_data ts m)[i]?).map (fun r => rget r k) =
          (ts[i]?).map (fun r => rget r k) := by
  refine ⟨by simp [enrich_sales_data], ?_⟩
  intro i k h1 h2 h3 h4
  rw [enrich_sales_data, List.getElem?_map]
  cases ts[i]? with
  | none => rfl
  | some t =>
    simp only [Option.map_some']
    rw [rget_enrichOne_ne t m h1 h2 h3 h4]

/-- Witness for C5: the `ProductName` field of the first record. -/
theorem C5_enrich_frame_amended_witness :
    ((enrich_sales_data [[("ProductName", vStr "A".toList)]] [])[0]?).map
        (fun r => rget r "ProductName") =
      (([[("ProductName", vStr "A".toList)]] : List Rec)[0]?).map
        (fun r => rget r "ProductName") :=
  (C5_enrich_frame_amended [[("ProductName", vStr "A".toList)]] []).2 0 "ProductName"
    (by decide) (by decide) (by decide) (by decide)

/-- C8: top-selling products is the `n`-prefix of a permutation of the
per-product aggregate list that is sorted by total quantity descending
and stable (entries of equal quantity keep their first-encounter
order, witnessed by the filter equations); the authoritative example
with products A (qty 10, price 5) and B (qty 20, price 2) and n = 1
returns [("B", 20, 40.0)]. -/
theorem C8_top_selling (ts : List Rec) (n : Nat) :
    (∃ l : List (Value × Int × ℚ), l.Perm (prodItems ts) ∧
      List.Pairwise itemGe l ∧
      (∀ q : Int, l.filter (fun e => decide (e.2.1 = q)) =
        (prodItems ts).filter (fun e => decide (e.2.1 = q))) ∧
      top_selling_products ts n = l.take n) ∧
    top_selling_products
      [[("ProductName", vStr "A".toList), ("Quantity", vInt 10), ("UnitPrice", vInt 5)],
       [("ProductName", vStr "B".toList), ("Quantity", vInt 20), ("UnitPrice", vInt 2)]] 1 =
      [(vStr "B".toList, 20, 40)] := by
  constructor
  · exact ⟨List.insertionSort itemGe (prodItems ts), List.perm_insertionSort _ _,
      List.sorted_insertionSort _ _, fun q => filter_insertionSort_key _ q, rfl⟩
  · decide

/-- C4 fails as stated: the sentinel for an empty transaction set is
("N/A", 0.0, 0), not ("no data", 0, 0). -/
theorem C4_counterexample :
    find_peak_sales_day [] = (vStr "N/A".toList, 0, 0) ∧
      find_peak_sales_day [] ≠ (vStr "no data".toList, 0, 0) := by
  constructor <;> decide

/-- C4 (amended): the daily trend is in ascending date order, and peak
day returns the sentinel ("N/A", 0.0, 0) — not ("no data", 0, 0) — on
an empty transaction set; whenever some trend entry's revenue exceeds
the initial best of -1, the result is the earliest trend entry with
maximal revenue (everything before it is strictly smaller, everything
after it no larger, because the comparison is strict); and whenever no
entry's revenue exceeds -1 (e.g. all revenues negative), the sentinel
is returned even though the trend is non-empty. -/
theorem C4_peak_day_amended :
    find_peak_sales_day [] = (vStr "N/A".toList, 0, 0) ∧
    (∀ ts : List Rec, (daily_sales_trend ts).Pairwise
      (fun e f => valueLeB e.1 f.1 = true)) ∧
    (∀ ts : List Rec, (∃ x ∈ daily_sales_trend ts, (-1 : ℚ) < x.2.revenue) →
      ∃ e pre post, daily_sales_trend ts = pre ++ e :: post ∧
        (∀ x ∈ pre, x.2.revenue < e.2.revenue) ∧
        (∀ x ∈ post, x.2.revenue ≤ e.2.revenue) ∧
        find_peak_sales_day ts = (e.1, e.2.revenue, e.2.transaction_count)) ∧
    (∀ ts : List Rec, (∀ x ∈ daily_sales_trend ts, x.2.revenue ≤ -1) →
      find_peak_sales_day ts = (vStr "N/A".toList, 0, 0)) := by
  refine ⟨by decide, ?_, ?_, ?_⟩
  · intro ts
    rw [daily_sales_trend]
    rw [List.pairwise_map]
    exact (List.sorted_insertionSort dateEntryLe _).imp (fun h => h)
  · intro ts hex
    obtain ⟨e, pre, post, heq, hpre, hpost, _, hfold⟩ :=
      peakFold_argmax (daily_sales_trend ts) none (-1) 0 hex
    refine ⟨e, pre, post, heq, hpre, hpost, ?_⟩
    rw [find_peak_sales_day, hfold]
  · intro ts hall
    rw [find_peak_sales_day, peakFold_const _ _ _ _ hall]

/-- Witness for C4 at one concrete transaction. -/
theorem C4_peak_day_amended_witness :
    ∃ e pre post,
      daily_sales_trend
          [[("Date", vStr "d1".toList), ("Quantity", vInt 2), ("UnitPrice", vInt 3)]] =
        pre ++ e :: post ∧
      (∀ x ∈ pre, x.2.revenue < e.2.revenue) ∧
      (∀ x ∈ post, x.2.revenue ≤ e.2.revenue) ∧
      find_peak_sales_day
          [[("Date", vStr "d1".toList), ("Quantity", vInt 2), ("UnitPrice", vInt 3)]] =
        (e.1, e.2.revenue, e.2.transaction_count) :=
  C4_peak_day_amended.2.2.1
    [[("Date", vStr "d1".toList), ("Quantity", vInt 2), ("UnitPrice", vInt 3)]] (by decide)

/-- C10 fails as stated: a transaction whose `Quantity` is missing but
whose `UnitPrice` is present and uncoercible is skipped entirely —
`region_wise_sales` creates no group for it, so its region's
transaction count is not incremented. -/
theorem C10_counterexample :
    rget [("Region", vStr "R".toList), ("UnitPrice", vStr "x".toList)] "Quantity" = none ∧
      region_wise_sales [[("Region", vStr "R".toList), ("UnitPrice", vStr "x".toList)]] = [] := by
  constructor <;> decide

/-- C10 (amended): a transaction whose `Quantity` or `UnitPrice` field
is missing is not skipped, provided the record's two monetary
coercions still succeed (the other field, if present, is coercible):
the missing field defaults to 0, so the record contributes 0 revenue
to every monetary aggregate, yet still increments the transaction /
purchase counts of its region, customer, and date groups. -/
theorem C10_missing_defaults_amended (t : Rec) (ts : List Rec)
    (hmiss : rget t "Quantity" = none ∨ rget t "UnitPrice" = none)
    (hco : (coerceQP t).isSome = true) :
    amount t = 0 ∧
    calculate_total_revenue (ts ++ [t]) = calculate_total_revenue ts ∧
    ((alookup (regionKey t) (region_wise_sales (ts ++ [t]))).map
        RegionStats.transaction_count).getD 0 =
      ((alookup (regionKey t) (region_wise_sales ts)).map
        RegionStats.transaction_count).getD 0 + 1 ∧
    ((alookup (custKey t) (customer_analysis (ts ++ [t]))).map
        CustStats.purchase_count).getD 0 =
      ((alookup (custKey t) (customer_analysis ts)).map CustStats.purchase_count).getD 0 + 1 ∧
    ((alookup (dateKey t) (daily_sales_trend (ts ++ [t]))).map
        DailyStats.transaction_count).getD 0 =
      ((alookup (dateKey t) (daily_sales_trend ts)).map
        DailyStats.transaction_count).getD 0 + 1 := by
  have hamount : amount t = 0 := by
    rw [Option.isSome_iff_exists] at hco
    obtain ⟨⟨q, p⟩, hc⟩ := hco
    have hqp : q = 0 ∨ p = 0 := by
      rcases hmiss with hm | hm
      · have hq : pyInt (rgetD t "Quantity" (vInt 0)) = some 0 := by
          rw [rgetD, hm]
          rfl
        rw [coerceQP, hq] at hc
        cases hp : pyFloat (rgetD t "UnitPrice" (vInt 0)) <;> rw [hp] at hc
        · exact absurd hc (by simp)
        · left
          injection hc with hc
          exact (Prod.mk.injEq _ _ _ _ ▸ hc).1.symm
      · have hp : pyFloat (rgetD t "UnitPrice" (vInt 0)) = some 0 := by
          rw [rgetD, hm]
          rfl
        rw [coerceQP, hp] at hc
        cases hq : pyInt (rgetD t "Quantity" (vInt 0)) <;> rw [hq] at hc
        · exact absurd hc (by simp)
        · right
          injection hc with hc
          exact (Prod.mk.injEq _ _ _ _ ▸ hc).2.symm
    rw [amount, hc]
    rcases hqp with h | h <;> simp [h]
  have hcount : ∀ k : Value, ∀ key : Rec → Value, key t = k →
      (ts ++ [t]).countP (fun t' => (coerceQP t').isSome && decide (key t' = k)) =
        ts.countP (fun t' => (coerceQP t').isSome && decide (key t' = k)) + 1 := by
    intro k key hk
    rw [List.countP_append, List.countP_cons, List.countP_nil]
    simp [hco, hk]
  refine ⟨hamount, ?_, ?_, ?_, ?_⟩
  · rw [calculate_total_revenue_eq_sum, calculate_total_revenue_eq_sum, List.map_append,
      List.sum_append]
    simp [hamount]
  · rw [region_lookup_count, region_lookup_count, hcount _ regionKey rfl]
  · rw [customer_lookup_count, customer_lookup_count, hcount _ custKey rfl]
  · rw [daily_lookup_count, daily_lookup_count, hcount _ dateKey rfl]

/-- Witness for C10: a record with only a `Region` field (both
monetary fields missing) still increments its region's count. -/
theorem C10_missing_defaults_amended_witness :
    ((alookup (regionKey [("Region", vStr "R".toList)])
        (region_wise_sales ([] ++ [[("Region", vStr "R".toList)]]))).map
        RegionStats.transaction_count).getD 0 =
      ((alookup (regionKey [("Region", vStr "R".toList)]) (region_wise_sales [])).map
        RegionStats.transaction_count).getD 0 + 1 :=
  (C10_missing_defaults_amended [("Region", vStr "R".toList)] [] (Or.inl (by decide))
    (by decide)).2.2.1

end ClaimTheorems

end SalesAnalytics
